import Mathlib

/-!
# Verification of folktale's `curry` and `copyDocumentation`

Shallow embedding of `src/core/lambda/curry.js` (the currying engine) and of
the documentation attacher `copyDocumentation`.  JavaScript argument values
are drawn from an abstract type `α`; results of invoking a JS function are
either plain (non-callable) values or callable values, and an invocation may
throw.
-/

/-- Errors raised during a JS invocation: either the engine tried to invoke a
non-callable value (JS `TypeError: x is not a function`), or the invoked code
itself threw (payload abstracted as a `Nat`). -/
inductive JsError : Type where
  | notCallable : JsError
  | thrown : Nat → JsError
deriving DecidableEq, Repr

/-- A JavaScript value as far as the currying engine observes one: either a
plain value (not callable) or a callable, i.e. a function from an ordered
argument list to an invocation outcome. -/
inductive CallResult (α : Type) : Type where
  | value : α → CallResult α
  | callable : (List α → Except JsError (CallResult α)) → CallResult α

/-- The type of a JS function as the engine sees it: variadic, taking an
ordered argument list, and either throwing or returning a value. -/
def JSFun (α : Type) : Type := List α → Except JsError (CallResult α)

/-- JS function application `v(...args)`: applying a non-callable value
throws a not-callable error; applying a callable runs it. -/
def invoke {α : Type} : CallResult α → List α → Except JsError (CallResult α)
  | .value _, _ => .error .notCallable
  | .callable g, args => g args

/-- The state captured by the closure `curried(oldArgs)` from `curry.js`:
the declared `arity` and target `fn` from the enclosing `curry` call, and the
argument accumulator `oldArgs` captured by this continuation. -/
structure Continuation (α : Type) : Type where
  arity : Nat
  fn : JSFun α
  oldArgs : List α

/-- The value returned by one call of a curried continuation: either a fresh
continuation still waiting for more arguments (the closure `curried(allArgs)`
in the source, defunctionalised here by its captured state) or the outcome of
invoking the target (directly, or through `unrollInvoke`). -/
inductive StepResult (α : Type) : Type where
  | waiting : Continuation α → StepResult α
  | done : Except JsError (CallResult α) → StepResult α

/-- The helper `unrollInvoke(fn_, arity_, args)` from `curry.js`:
```js
const firstFnArgs = args.slice(0, arity_);
const secondFnArgs = args.slice(arity_);
return fn_(...firstFnArgs)(...secondFnArgs);
```
If `fn_` throws, the exception propagates; if its result is not callable,
invoking it throws a not-callable error. -/
def unrollInvoke {α : Type} (fn_ : JSFun α) (arity_ : Nat) (args : List α) :
    Except JsError (CallResult α) := do
  let v ← fn_ (args.take arity_)
  invoke v (args.drop arity_)

/-- One call of the closure `curried(oldArgs)` with `newArgs`, from `curry.js`:
```js
const allArgs  = oldArgs.concat(newArgs);
const argCount = allArgs.length;
return argCount < arity   ?  curried(allArgs)
:      argCount === arity ?  fn(...allArgs)
:      /* otherwise */       unrollInvoke(fn, arity, allArgs);
```
-/
def curried {α : Type} (c : Continuation α) (newArgs : List α) : StepResult α :=
  let allArgs := c.oldArgs ++ newArgs
  let argCount := allArgs.length
  if argCount < c.arity then .waiting ⟨c.arity, c.fn, allArgs⟩
  else if argCount = c.arity then .done (c.fn allArgs)
  else .done (unrollInvoke c.fn c.arity allArgs)

/-- The entry point `curry(arity, fn)` from `curry.js`: returns `curried([])`, the initial
continuation with an empty argument accumulator. -/
def curry {α : Type} (arity : Nat) (fn : JSFun α) : Continuation α :=
  ⟨arity, fn, []⟩

/-- A sequence of successive calls starting from a continuation: each call
either yields a new waiting continuation (fed the next argument list) or a
terminal outcome.  `none` signals that a terminal outcome arrived while
further calls remained (those calls would no longer hit the curried
machinery but its result). -/
def callChain {α : Type} (c : Continuation α) : List (List α) → Option (StepResult α)
  | [] => some (.waiting c)
  | args :: rest =>
    match curried c args with
    | .waiting c' => callChain c' rest
    | .done r => if rest.isEmpty then some (.done r) else none

/-!
## Documentation attacher (`copyDocumentation`)

The source file holds:
```js
const mm = Symbol.for('@@meta:magical');
const env = require("folktale/helpers/env");
const copyDocumentation = (source, target, extensions = {}) => {
  const docs = env("FOLKTALE_DOCS", "false");
  if (docs !== 'false') {
    target[mm] = Object.assign({}, source[mm] || {}, extensions);
  }
};
```
Objects are modelled by their reserved `@@meta:magical` slot (absent or a
string-keyed dictionary) together with their ordinary string-keyed
properties; the reserved slot is a symbol key, so it lives apart from the
ordinary properties.
-/

/-- A JS dictionary: string keys to values, `none` meaning the key is
absent. -/
def JsDict (β : Type) : Type := String → Option β

/-- The empty object literal `{}`. -/
def emptyDict {β : Type} : JsDict β := fun _ => none

/-- The merge `Object.assign({}, src, ext)` restricted to string keys: a fresh shallow
single-level overlay where keys of `ext` take precedence over same-named
keys of `src`. -/
def objectAssign {β : Type} (src ext : JsDict β) : JsDict β :=
  fun k => match ext k with
    | some v => some v
    | none => src k

/-- A JS object as `copyDocumentation` observes one: its reserved
`@@meta:magical` metadata slot (a symbol key, possibly absent) and its
ordinary string-keyed properties. -/
structure JSObject (β : Type) : Type where
  docSlot : Option (JsDict β)
  props : JsDict β

/-- Modelled from the spec: the helper `folktale/helpers/env` is required by
the source but its code is not among the sources.  Per the spec it reads a
process-wide configuration variable from the execution environment, the
textual value defaulting to the supplied default when the variable is
absent.  The ambient environment is passed explicitly as `environment`. -/
def env (environment : String → Option String) (name dflt : String) : String :=
  (environment name).getD dflt

/-- The attacher `copyDocumentation(source, target, extensions)`: reads the
`FOLKTALE_DOCS` flag through `env` (default `"false"`); when the flag's
value is not the string `"false"`, sets `target`'s reserved slot to
`Object.assign({}, source[mm] || {}, extensions)`; otherwise does nothing.
The JS function returns `undefined`; the embedding passes the `target`
state through explicitly and returns its (possibly updated) value. -/
def copyDocumentation {β : Type} (environment : String → Option String)
    (source target : JSObject β) (extensions : JsDict β) : JSObject β :=
  let docs := env environment "FOLKTALE_DOCS" "false"
  if docs ≠ "false" then
    { target with docSlot := some (objectAssign (source.docSlot.getD emptyDict) extensions) }
  else target

/-!
## Concrete JS functions used in witnesses

Counterparts of the spec's examples: `add = (a, b) => a + b` (variadic, as
all JS functions are, summing its arguments), `() => 42`, the two-stage
`f = (a, b) => (c) => a + b + c`, a function that throws, and a function
returning a closure that throws.
-/

/-- JS `add`: sums all supplied arguments; `add(1, 2) = 3`. -/
def addFn : JSFun Int := fun args => .ok (.value (args.foldl (· + ·) 0))

/-- JS `() => 42`. -/
def const42 : JSFun Int := fun _ => .ok (.value 42)

/-- JS `f = (a, b) => (c) => a + b + c` (variadic model: each stage sums its
argument list). -/
def unrollFn : JSFun Int := fun args =>
  .ok (.callable (fun args2 => .ok (.value (args.foldl (· + ·) 0 + args2.foldl (· + ·) 0))))

/-- A target that throws on invocation. -/
def throwFn : JSFun Int := fun _ => .error (.thrown 7)

/-- A target returning a closure that throws when invoked. -/
def retThrower : JSFun Int := fun _ => .ok (.callable (fun _ => .error (.thrown 9)))

/-!
## Branch lemmas for one `curried` call
-/

/-- Under-arity branch of `curried`. -/
lemma curried_of_lt {α : Type} (c : Continuation α) (newArgs : List α)
    (h : (c.oldArgs ++ newArgs).length < c.arity) :
    curried c newArgs = .waiting ⟨c.arity, c.fn, c.oldArgs ++ newArgs⟩ := by
  simp only [List.length_append] at h
  simp [curried, h]

/-- Exact-arity branch of `curried`. -/
lemma curried_of_eq {α : Type} (c : Continuation α) (newArgs : List α)
    (h : (c.oldArgs ++ newArgs).length = c.arity) :
    curried c newArgs = .done (c.fn (c.oldArgs ++ newArgs)) := by
  simp [curried, h]

/-- Overflow branch of `curried`. -/
lemma curried_of_gt {α : Type} (c : Continuation α) (newArgs : List α)
    (h : c.arity < (c.oldArgs ++ newArgs).length) :
    curried c newArgs = .done (unrollInvoke c.fn c.arity (c.oldArgs ++ newArgs)) := by
  have h1 : ¬ (c.oldArgs ++ newArgs).length < c.arity := Nat.not_lt.mpr (Nat.le_of_lt h)
  have h2 : ¬ (c.oldArgs ++ newArgs).length = c.arity := Nat.ne_of_gt h
  simp only [List.length_append] at h1 h2
  simp [curried, h1, h2]

/-- Unfolding of `unrollInvoke`: the target is invoked once on the first
`arity_` arguments, and its result (if the target did not throw) is invoked
once on the rest. -/
lemma unrollInvoke_eq {α : Type} (fn_ : JSFun α) (arity_ : Nat) (args : List α) :
    unrollInvoke fn_ arity_ args =
      match fn_ (args.take arity_) with
      | .error e => .error e
      | .ok v => invoke v (args.drop arity_) := by
  unfold unrollInvoke
  cases fn_ (args.take arity_) <;> rfl

/-- A chain of calls whose chunk lengths stay strictly below the arity until
the final chunk, which exactly reaches it, ends in a single direct
invocation of the target on the concatenation of the accumulator with all
the chunks. -/
lemma callChain_reaches_arity {α : Type} (t : JSFun α) (arity : Nat) :
    ∀ (chunks : List (List α)) (A : List α), chunks ≠ [] →
      A.length + chunks.flatten.length = arity →
      (∀ i < chunks.length - 1, A.length + ((chunks.take (i + 1)).flatten).length < arity) →
      callChain ⟨arity, t, A⟩ chunks = some (.done (t (A ++ chunks.flatten)))
  | [], _, hne, _, _ => absurd rfl hne
  | [x], A, _, hlen, _ => by
    have hx : (A ++ x).length = arity := by
      simpa [List.length_append] using hlen
    have hstep := curried_of_eq ⟨arity, t, A⟩ x hx
    simp [callChain, hstep]
  | x :: y :: rest, A, _, hlen, hpre => by
    have hx : (A ++ x).length < arity := by
      have := hpre 0 (by simp)
      simpa [List.length_append] using this
    have hstep := curried_of_lt ⟨arity, t, A⟩ x hx
    have ih := callChain_reaches_arity t arity (y :: rest) (A ++ x) (by simp)
      (by simp only [List.length_append, List.flatten_cons] at hlen ⊢; omega)
      (by
        intro i hi
        have := hpre (i + 1) (by simpa using Nat.succ_lt_succ hi)
        simp only [List.take_succ_cons, List.flatten_cons, List.length_append] at this ⊢
        omega)
    have step1 : callChain ⟨arity, t, A⟩ (x :: y :: rest)
        = callChain ⟨arity, t, A ++ x⟩ (y :: rest) := by
      simp only [callChain, hstep]
    rw [step1, ih]
    simp [List.flatten_cons, List.append_assoc]

/-!
## Claim theorems
-/

/-- C1: for every non-negative arity and every target, calling the curried
form returned by `curry arity fn` with exactly `arity` arguments in a single
call invokes `fn` once with those arguments in order and returns its result
directly (for arity 0, a call with no arguments invokes `fn` with no
arguments). -/
theorem curry_exact_arity {α : Type} (arity : Nat) (fn : JSFun α) (args : List α)
    (h : args.length = arity) :
    curried (curry arity fn) args = .done (fn args) :=
  curried_of_eq (curry arity fn) args (by simpa [curry] using h)

theorem curry_exact_arity_witness :
    curried (curry 0 const42) [] = .done (const42 []) ∧
    curried (curry 2 addFn) [1, 2] = .done (addFn [1, 2]) :=
  ⟨curry_exact_arity 0 const42 [] rfl, curry_exact_arity 2 addFn [1, 2] rfl⟩

/-- C2: argument accumulation is associative across call boundaries — every
way of splitting an `arity`-long argument sequence into successive calls
(each call before the last still leaving the total strictly under the arity)
produces the same terminal outcome as a single call: one invocation of the
target on the whole sequence. -/
theorem curry_split_invariance {α : Type} (arity : Nat) (t : JSFun α)
    (chunks : List (List α)) (hne : chunks ≠ [])
    (hlen : chunks.flatten.length = arity)
    (hpre : ∀ i < chunks.length - 1, ((chunks.take (i + 1)).flatten).length < arity) :
    callChain (curry arity t) chunks = some (.done (t chunks.flatten)) := by
  have h := callChain_reaches_arity t arity chunks [] hne (by simpa using hlen)
    (by simpa using hpre)
  simpa [curry] using h

theorem curry_split_invariance_witness :
    callChain (curry 2 addFn) [[1], [2]] = some (.done (addFn ([1, 2] : List Int))) :=
  curry_split_invariance 2 addFn [[1], [2]] (by decide) (by decide) (by decide)

/-- C3: when a continuation holding accumulator `A` is called with `N` and
`|A| + |N| < arity`, the call returns a new waiting continuation whose
accumulator is the order-preserving concatenation `A ++ N` (same arity, same
target), and the target is not invoked (no `done` outcome is produced). -/
theorem curry_under_arity {α : Type} (arity : Nat) (t : JSFun α) (A N : List α)
    (h : A.length + N.length < arity) :
    curried ⟨arity, t, A⟩ N = .waiting ⟨arity, t, A ++ N⟩ :=
  curried_of_lt ⟨arity, t, A⟩ N (by simpa [List.length_append] using h)

theorem curry_under_arity_witness :
    curried ⟨3, addFn, [1]⟩ [2] = .waiting ⟨3, addFn, [1, 2]⟩ :=
  curry_under_arity 3 addFn [1] [2] (by decide)

/-- C4: when `|A| + |N| > arity`, the combined sequence is split at index
`arity`; the target is invoked exactly once with the first part, and (unless
it threw) its result is invoked exactly once with the rest, that second
result being returned — a single level of unrolling, with no further
re-currying or re-splitting. -/
theorem curry_overflow_unrolls_once {α : Type} (arity : Nat) (t : JSFun α) (A N : List α)
    (h : arity < A.length + N.length) :
    curried ⟨arity, t, A⟩ N =
      .done (match t ((A ++ N).take arity) with
        | .error e => .error e
        | .ok v => invoke v ((A ++ N).drop arity)) := by
  have hgt := curried_of_gt ⟨arity, t, A⟩ N (by simpa [List.length_append] using h)
  rw [hgt, unrollInvoke_eq]

theorem curry_overflow_unrolls_once_witness :
    curried ⟨2, unrollFn, []⟩ [1, 2, 3] =
      .done (match unrollFn (([1, 2, 3] : List Int).take 2) with
        | .error e => .error e
        | .ok v => invoke v (([1, 2, 3] : List Int).drop 2)) :=
  curry_overflow_unrolls_once 2 unrollFn [] [1, 2, 3] (by decide)

/-- C5: in the overflow case a non-callable intermediate value makes the
call fail with a not-callable error at the point it is invoked; and every
failure raised by invoking the target (exact-arity case) or by invoking its
result (overflow case) propagates to the caller unchanged — no wrapping,
retry, or recovery, and no prior validation by the engine. -/
theorem curry_failure_propagation {α : Type} (arity : Nat) (t : JSFun α) (A N : List α) :
    ((A ++ N).length = arity →
      ∀ e : JsError, t (A ++ N) = .error e →
        curried ⟨arity, t, A⟩ N = .done (.error e)) ∧
    (arity < (A ++ N).length →
      (∀ e : JsError, t ((A ++ N).take arity) = .error e →
        curried ⟨arity, t, A⟩ N = .done (.error e)) ∧
      (∀ x : α, t ((A ++ N).take arity) = .ok (.value x) →
        curried ⟨arity, t, A⟩ N = .done (.error .notCallable)) ∧
      (∀ (g : List α → Except JsError (CallResult α)) (e : JsError),
        t ((A ++ N).take arity) = .ok (.callable g) →
        g ((A ++ N).drop arity) = .error e →
        curried ⟨arity, t, A⟩ N = .done (.error e))) := by
  constructor
  · intro hlen e he
    rw [curried_of_eq ⟨arity, t, A⟩ N hlen]
    dsimp only
    rw [he]
  · intro hgt
    have hu := curried_of_gt ⟨arity, t, A⟩ N hgt
    refine ⟨?_, ?_, ?_⟩
    · intro e he
      rw [hu, unrollInvoke_eq]
      dsimp only
      rw [he]
    · intro x hx
      rw [hu, unrollInvoke_eq]
      dsimp only
      rw [hx]
      rfl
    · intro g e hg hge
      rw [hu, unrollInvoke_eq]
      dsimp only
      rw [hg]
      simpa [invoke] using hge

theorem curry_failure_propagation_witness :
    curried ⟨1, throwFn, []⟩ [5] = .done (.error (.thrown 7)) ∧
    curried ⟨1, throwFn, []⟩ [5, 6] = .done (.error (.thrown 7)) ∧
    curried ⟨2, addFn, []⟩ [1, 2, 3] = .done (.error .notCallable) ∧
    curried ⟨1, retThrower, []⟩ [5, 6] = .done (.error (.thrown 9)) :=
  ⟨(curry_failure_propagation 1 throwFn [] [5]).1 rfl (.thrown 7) rfl,
   ((curry_failure_propagation 1 throwFn [] [5, 6]).2 (by decide)).1 (.thrown 7) rfl,
   ((curry_failure_propagation 2 addFn [] [1, 2, 3]).2 (by decide)).2.1 3 rfl,
   ((curry_failure_propagation 1 retThrower [] [5, 6]).2 (by decide)).2.2
     (fun _ => .error (.thrown 9)) (.thrown 9) rfl rfl⟩

/-- C6: the machinery is deterministic and continuations are independent
under reuse.  A call's outcome is a pure function of the continuation state
and that call's own arguments (so identical calls yield identical results),
and two invocations of the same continuation each combine the stored
accumulator with only their own arguments: `p = curry 3 f` applied to `[1]`
then to `[2,3]` and `[4,5]` computes `f [1,2,3]` and `f [1,4,5]`
independently. -/
theorem curry_reuse_independent {α : Type} (arity : Nat) (t : JSFun α) (A n1 n2 : List α)
    (h1 : A.length + n1.length = arity) (h2 : A.length + n2.length = arity) :
    curried ⟨arity, t, A⟩ n1 = .done (t (A ++ n1)) ∧
    curried ⟨arity, t, A⟩ n2 = .done (t (A ++ n2)) :=
  ⟨curried_of_eq ⟨arity, t, A⟩ n1 (by simpa [List.length_append] using h1),
   curried_of_eq ⟨arity, t, A⟩ n2 (by simpa [List.length_append] using h2)⟩

theorem curry_reuse_independent_witness :
    curried ⟨3, addFn, [1]⟩ [2, 3] = .done (addFn [1, 2, 3]) ∧
    curried ⟨3, addFn, [1]⟩ [4, 5] = .done (addFn [1, 4, 5]) :=
  curry_reuse_independent 3 addFn [1] [2, 3] [4, 5] (by decide) (by decide)

/-- C7: `curry arity fn` returns a continuation with an empty accumulator,
and every continuation handed back to the caller as still waiting holds an
accumulator strictly shorter than its arity — every step of the invocation
protocol preserves this invariant. -/
theorem curry_accumulator_invariant {α : Type} (arity : Nat) (fn : JSFun α) :
    (curry arity fn).oldArgs = [] ∧
    (0 < arity → (curry arity fn).oldArgs.length < arity) ∧
    ∀ (c : Continuation α) (newArgs : List α) (c' : Continuation α),
      curried c newArgs = .waiting c' → c'.oldArgs.length < c'.arity := by
  refine ⟨rfl, fun h => h, ?_⟩
  intro c newArgs c' h
  by_cases hlt : (c.oldArgs ++ newArgs).length < c.arity
  · rw [curried_of_lt c newArgs hlt] at h
    cases h
    exact hlt
  · by_cases heq : (c.oldArgs ++ newArgs).length = c.arity
    · rw [curried_of_eq c newArgs heq] at h
      cases h
    · rw [curried_of_gt c newArgs (by omega)] at h
      cases h

theorem curry_accumulator_invariant_witness :
    ([] : List Int).length = ([] : List Int).length ∧
    ([] : List Int).length < 3 ∧
    ([1, 2] : List Int).length < 3 :=
  ⟨congrArg List.length (curry_accumulator_invariant 3 addFn).1,
   (curry_accumulator_invariant 3 addFn).2.1 (by decide),
   (curry_accumulator_invariant 3 addFn).2.2 ⟨3, addFn, [1]⟩ [2] ⟨3, addFn, [1, 2]⟩ rfl⟩

/-!
## Concrete objects used in the documentation-attacher witnesses
-/

/-- A source object whose reserved slot is `{a: 1, b: 2}`. -/
def sampleSource : JSObject Int :=
  ⟨some (fun k => if k = "a" then some 1 else if k = "b" then some 2 else none),
   fun _ => none⟩

/-- A target object with a pre-existing reserved slot `{z: 9}` and an
ordinary property `p: 5`. -/
def sampleTarget : JSObject Int :=
  ⟨some (fun k => if k = "z" then some 9 else none),
   fun k => if k = "p" then some 5 else none⟩

/-- A source object with no reserved slot at all. -/
def slotlessSource : JSObject Int := ⟨none, fun _ => none⟩

/-- The extensions dictionary `{b: 3, c: 4}`. -/
def extDict : JsDict Int :=
  fun k => if k = "b" then some 3 else if k = "c" then some 4 else none

/-- C8: with the documentation-mode flag unset or set to the textual value
`"false"`, `copyDocumentation` has no observable effect — the target (its
reserved slot and every other property) is returned unchanged, for every
source, target, and extensions. -/
theorem copyDocumentation_disabled_noop {β : Type} (environment : String → Option String)
    (source target : JSObject β) (extensions : JsDict β)
    (h : environment "FOLKTALE_DOCS" = none ∨ environment "FOLKTALE_DOCS" = some "false") :
    copyDocumentation environment source target extensions = target := by
  unfold copyDocumentation env
  rcases h with h | h <;> simp [h]

theorem copyDocumentation_disabled_noop_witness :
    copyDocumentation (fun _ => none) sampleSource sampleTarget extDict = sampleTarget ∧
    copyDocumentation (fun _ => some "false") sampleSource sampleTarget extDict = sampleTarget :=
  ⟨copyDocumentation_disabled_noop _ sampleSource sampleTarget extDict (Or.inl rfl),
   copyDocumentation_disabled_noop _ sampleSource sampleTarget extDict (Or.inr rfl)⟩

/-- C9: with the flag set to any value other than `"false"`,
`copyDocumentation` sets the target's reserved slot to the shallow
single-level overlay of the source's slot with the extensions — keys of the
extensions take precedence over same-named keys of the source's slot — and
leaves the ordinary properties untouched (the JS call itself returns
`undefined`). -/
theorem copyDocumentation_enabled_merge {β : Type} (environment : String → Option String)
    (v : String) (source target : JSObject β) (extensions : JsDict β)
    (hset : environment "FOLKTALE_DOCS" = some v) (hv : v ≠ "false") :
    (copyDocumentation environment source target extensions).docSlot
      = some (objectAssign (source.docSlot.getD emptyDict) extensions) ∧
    (copyDocumentation environment source target extensions).props = target.props ∧
    ∀ k : String,
      objectAssign (source.docSlot.getD emptyDict) extensions k
        = match extensions k with
          | some w => some w
          | none => (source.docSlot.getD emptyDict) k := by
  unfold copyDocumentation env
  rw [hset]
  simp [hv]
  intro k
  rfl

theorem copyDocumentation_enabled_merge_witness :
    (copyDocumentation (fun _ => some "true") sampleSource sampleTarget extDict).docSlot
      = some (objectAssign (sampleSource.docSlot.getD emptyDict) extDict) ∧
    ((copyDocumentation (fun _ => some "true") sampleSource sampleTarget extDict).docSlot.getD
      emptyDict) "a" = some 1 ∧
    ((copyDocumentation (fun _ => some "true") sampleSource sampleTarget extDict).docSlot.getD
      emptyDict) "b" = some 3 ∧
    ((copyDocumentation (fun _ => some "true") sampleSource sampleTarget extDict).docSlot.getD
      emptyDict) "c" = some 4 :=
  ⟨(copyDocumentation_enabled_merge _ "true" sampleSource sampleTarget extDict rfl
      (by decide)).1, rfl, rfl, rfl⟩

/-- C10 (implicit): when enabled, the attacher replaces the target's
reserved slot wholesale — the resulting slot depends only on the source's
slot and the extensions (not on the target), a key absent from both the
source's slot and the extensions is absent from the result even if the
target's old slot had it, and a source with no reserved slot yields a slot
that is exactly a copy of the extensions. -/
theorem copyDocumentation_replaces_wholesale {β : Type} (environment : String → Option String)
    (v : String) (hset : environment "FOLKTALE_DOCS" = some v) (hv : v ≠ "false") :
    (∀ (source t1 t2 : JSObject β) (extensions : JsDict β),
      (copyDocumentation environment source t1 extensions).docSlot
        = (copyDocumentation environment source t2 extensions).docSlot) ∧
    (∀ (source target : JSObject β) (extensions : JsDict β) (k : String),
      extensions k = none → (source.docSlot.getD emptyDict) k = none →
      ((copyDocumentation environment source target extensions).docSlot.getD emptyDict) k
        = none) ∧
    (∀ (source target : JSObject β) (extensions : JsDict β),
      source.docSlot = none →
      ∀ k, ((copyDocumentation environment source target extensions).docSlot.getD emptyDict) k
        = extensions k) := by
  have henv : env environment "FOLKTALE_DOCS" "false" = v := by
    unfold env
    rw [hset]
    rfl
  refine ⟨?_, ?_, ?_⟩
  · intro source t1 t2 extensions
    unfold copyDocumentation
    rw [henv]
    simp [hv]
  · intro source target extensions k hek hsk
    unfold copyDocumentation
    rw [henv]
    simp only [hv, ne_eq, not_false_iff, if_true, Option.getD_some]
    simp [objectAssign, hek, hsk]
  · intro source target extensions hs k
    unfold copyDocumentation
    rw [henv]
    simp only [hv, ne_eq, not_false_iff, if_true, Option.getD_some]
    rw [hs]
    simp only [Option.getD_none]
    unfold objectAssign emptyDict
    cases extensions k <;> rfl

theorem copyDocumentation_replaces_wholesale_witness :
    ((copyDocumentation (fun _ => some "true") sampleSource sampleTarget extDict).docSlot.getD
      emptyDict) "z" = none ∧
    ((copyDocumentation (fun _ => some "true") slotlessSource sampleTarget extDict).docSlot.getD
      emptyDict) "b" = extDict "b" :=
  ⟨(copyDocumentation_replaces_wholesale _ "true" rfl (by decide)).2.1
      sampleSource sampleTarget extDict "z" rfl rfl,
   (copyDocumentation_replaces_wholesale _ "true" rfl (by decide)).2.2
      slotlessSource sampleTarget extDict rfl "b"⟩


